import Mathlib

/-!
Shallow embedding of the collaboration relay server in
`server/websocket-server.ts` (class `CollaborativeServer`).

The server keeps a registry `rooms : Map<string, RoomData>` where
`RoomData = { doc : Y.Doc, clients : Set<ExtendedWebSocket> }`, and each
connected socket carries `isAlive`, `roomId` and `doc` fields.  We model:

* a socket (`ExtendedWebSocket`) as a `Session` record addressed by a
  numeric `SessId`; the set of live sockets (`wss.clients`) is an
  association list `sessions`;
* the registry as an association list `rooms` with JavaScript `Map`
  semantics (`set` overwrites in place, insertion order preserved);
* a `Y.Doc` as the journal of updates applied to it (`Doc := List Bytes`);
  the external Yjs operations `Y.encodeStateAsUpdate` and
  `Y.encodeStateVector` are deterministic functions of that journal and are
  kept abstract: the relay's operations take them as function parameters.
  `Y.applyUpdate doc u` is journal extension, which records exactly the
  information the relay feeds into the library;
* `JSON.stringify`/`JSON.parse` as the identity on a JSON value type
  `JVal`; a wire message is either a well-formed JSON value or `garbage`
  (a buffer on which `JSON.parse` throws);
* `client.send(...)` as an element of an output list `List Send`.
-/

namespace WsRelay

/-- Process-local connection identifier for a socket. -/
abbrev SessId := Nat

/-- A binary payload (`Uint8Array` / `Buffer` contents) as a list of bytes. -/
abbrev Bytes := List Nat

/-- A `Y.Doc`, modelled as the journal of updates applied to it.  The Yjs
library's encoding functions are deterministic functions of this journal and
are passed to the relay operations as abstract parameters. -/
abbrev Doc := List Bytes

/-- `new Y.Doc()`: a fresh document with no updates applied. -/
def newDoc : Doc := []

/-- `Y.applyUpdate doc u`: record the update in the document's journal. -/
def applyUpdate (d : Doc) (u : Bytes) : Doc := d ++ [u]

/-- JSON values, the image of `JSON.parse` on a successfully parsed buffer. -/
inductive JVal where
  | null : JVal
  | bool (b : Bool) : JVal
  | num (n : Int) : JVal
  | str (s : String) : JVal
  | arr (xs : List JVal) : JVal
  | obj (fs : List (String × JVal)) : JVal

/-- JavaScript property lookup on a parsed JSON object: with duplicate keys
`JSON.parse` keeps the last occurrence, so lookup returns the last binding. -/
def jfield (k : String) : List (String × JVal) → Option JVal
  | [] => none
  | (k', v) :: rest =>
      match jfield k rest with
      | some r => some r
      | none => if k = k' then some v else none

/-- Property access `v[k]` on a JSON value: `undefined` (here `none`) unless
`v` is an object with the property. -/
def JVal.field (v : JVal) (k : String) : Option JVal :=
  match v with
  | .obj fs => jfield k fs
  | _ => none

/-- Whether a JSON value is an array (`Array.isArray`). -/
def JVal.isArr : JVal → Bool
  | .arr _ => true
  | _ => false

/-- A message payload as the handlers see it: either a byte sequence
(`Uint8Array`) or any other JavaScript value. -/
inductive Payload where
  | bytes (bs : Bytes) : Payload
  | json (v : JVal) : Payload

/-- The JavaScript `ToUint8` coercion applied by `new Uint8Array(array)` to
each element: integers are taken mod 256; `true` is 1; `null`, `false` and
other non-numeric values become 0 (via `ToNumber` then `NaN → 0`; numeric
strings are approximated by 0, which no theorem below relies on). -/
def toUint8 : JVal → Nat
  | .num n => (n % 256).toNat
  | .bool b => if b then 1 else 0
  | _ => 0

/-- The wire form of a payload inside `createMessage`:
`data instanceof Uint8Array ? Array.from(data) : data`. -/
def payloadToWire : Payload → JVal
  | .bytes bs => .arr (bs.map fun b => .num (Int.ofNat b))
  | .json v => v

/-- `createMessage(type, data)`: the JSON value serialized onto the wire,
`{ type, data, timestamp }`.  The ambient `Date.now()` is the `ts` argument. -/
def createMessage (type : String) (data : Payload) (ts : Nat) : JVal :=
  .obj [("type", .str type), ("data", payloadToWire data), ("timestamp", .num (Int.ofNat ts))]

/-- The result of `parseMessage` as consumed by `handleMessage`: the `type`
property (`some s` when it is a string, `none` when missing or non-string,
in which case the `switch` falls through to `default`) and the `data`
property after the `Array.isArray` conversion. -/
structure Parsed where
  type : Option String
  data : Payload

/-- `parseMessage(data)` on a successfully parsed JSON value: if `data` is an
array it is converted by `new Uint8Array(data)` into a byte sequence
(elementwise `ToUint8`); anything else passes through.  A missing `data`
property (`undefined`) is modelled as `null`. -/
def parseMessage (v : JVal) : Parsed :=
  { type :=
      match v.field "type" with
      | some (.str s) => some s
      | _ => none
    data :=
      match v.field "data" with
      | some (.arr xs) => .bytes (xs.map toUint8)
      | some w => .json w
      | none => .json .null }

/-! ## Server state -/

/-- The per-socket state of an `ExtendedWebSocket`: the heartbeat flag
`isAlive`, the room assigned at connection time (`ws.roomId`), the document
handle assigned by `joinRoom` (`ws.doc`, an index into the document heap),
and whether `ws.readyState === WebSocket.OPEN`. -/
structure Session where
  isAlive : Bool
  roomId : Option String
  docId : Option Nat
  isOpen : Bool
deriving DecidableEq

/-- `RoomData`: the room's document (an index into the document heap, since
the `Y.Doc` object is shared by reference with its members' `ws.doc`) and its
client set.  A JavaScript `Set` iterates in insertion order, so `clients` is
a duplicate-free list in insertion order. -/
structure RoomData where
  docId : Nat
  clients : List SessId
deriving DecidableEq

/-- The whole server state: the room registry (`this.rooms`), the set of
connected sockets (`this.wss.clients`, with their per-socket fields), and
the heap of `Y.Doc` objects addressed by `docId`. -/
structure ServerState where
  rooms : List (String × RoomData)
  sessions : List (SessId × Session)
  docs : List Doc
deriving DecidableEq

/-- Lookup in an association list (`Map.prototype.get`). -/
def alookup {α β : Type} [DecidableEq α] (k : α) : List (α × β) → Option β
  | [] => none
  | (k', v) :: rest => if k = k' then some v else alookup k rest

/-- `Map.prototype.set`: overwrite in place if the key is present, otherwise
append (JavaScript `Map` preserves insertion order). -/
def aset {α β : Type} [DecidableEq α] (k : α) (v : β) : List (α × β) → List (α × β)
  | [] => [(k, v)]
  | (k', v') :: rest => if k = k' then (k, v) :: rest else (k', v') :: aset k v rest

/-- `Map.prototype.delete`: remove the entry with the key, if present. -/
def aerase {α β : Type} [DecidableEq α] (k : α) : List (α × β) → List (α × β)
  | [] => []
  | (k', v') :: rest => if k = k' then rest else (k', v') :: aerase k rest

/-- `Set.prototype.add` on the client set: no-op when already a member,
otherwise append at the end (insertion order). -/
def addClient (sid : SessId) (cs : List SessId) : List SessId :=
  if sid ∈ cs then cs else cs ++ [sid]

/-- The session record of a socket, if the socket is connected. -/
def getSession (st : ServerState) (sid : SessId) : Option Session :=
  alookup sid st.sessions

/-- `client.readyState === WebSocket.OPEN` for a destination socket. -/
def sessionOpen (st : ServerState) (sid : SessId) : Bool :=
  match getSession st sid with
  | some s => s.isOpen
  | none => false

/-- Read a document from the heap (a dangling index yields a fresh journal;
it never arises in the states the theorems quantify over). -/
def getDoc (st : ServerState) (d : Nat) : Doc := st.docs.getD d []

/-- A message sent on some socket: the destination and the `(type, data)`
content of the frame handed to `createMessage` (the frame on the wire is
`createMessage type data ts` for the ambient timestamp `ts`). -/
structure Send where
  target : SessId
  type : String
  data : Payload

/-! ## Room registry: joinRoom / leaveRoom -/

/-- The document that `joinRoom` encodes for the joining client: the
existing room's document, or the fresh document of a room about to be
created. -/
def joinDoc (st : ServerState) (roomId : String) : Doc :=
  match alookup roomId st.rooms with
  | some room => getDoc st room.docId
  | none => newDoc

/-- `joinRoom(ws, roomId)`: create the room with a fresh `Y.Doc` when absent,
add the socket to the client set, set `ws.doc` to the room's document, and —
when `Y.encodeStateAsUpdate(room.doc)` is non-empty — send the joining client
one `sync-update` frame with the full encoded state.  `enc` is the external
`Y.encodeStateAsUpdate`. -/
def joinRoom (enc : Doc → Bytes) (st : ServerState) (sid : SessId) (roomId : String) :
    ServerState × List Send :=
  let ensured :=
    match alookup roomId st.rooms with
    | some _ => (st.rooms, st.docs)
    | none => (aset roomId ⟨st.docs.length, []⟩ st.rooms, st.docs ++ [newDoc])
  let room := (alookup roomId ensured.1).getD ⟨0, []⟩
  let rooms' := aset roomId { room with clients := addClient sid room.clients } ensured.1
  let sessions' :=
    match alookup sid st.sessions with
    | some s => aset sid { s with docId := some room.docId } st.sessions
    | none => st.sessions
  let st' : ServerState := ⟨rooms', sessions', ensured.2⟩
  let encoded := enc (ensured.2.getD room.docId [])
  (st', if encoded.length > 0 then [⟨sid, "sync-update", .bytes encoded⟩] else [])

/-- `leaveRoom(ws, roomId)`: remove the socket from the room's client set;
delete the room from the registry when the set becomes empty.  Unknown room
ids are a no-op. -/
def leaveRoom (st : ServerState) (sid : SessId) (roomId : String) : ServerState :=
  match alookup roomId st.rooms with
  | none => st
  | some room =>
      let clients' := room.clients.erase sid
      if clients'.isEmpty then
        { st with rooms := aerase roomId st.rooms }
      else
        { st with rooms := aset roomId { room with clients := clients' } st.rooms }

/-! ## Message handlers -/

/-- The fan-out loop `room.clients.forEach(client => if (client !== ws &&
client.readyState === WebSocket.OPEN) client.send(createMessage(type, data)))`. -/
def broadcast (st : ServerState) (sender : SessId) (clients : List SessId)
    (type : String) (data : Payload) : List Send :=
  (clients.filter fun c => c != sender && sessionOpen st c).map fun c => ⟨c, type, data⟩

/-- `handleSyncUpdate(ws, update)`: guard on `ws.doc` and `ws.roomId` and on
the room being registered; then `Y.applyUpdate(room.doc, update)` and
broadcast the same update bytes to every other open member. -/
def handleSyncUpdate (st : ServerState) (sid : SessId) (update : Bytes) :
    ServerState × List Send :=
  match getSession st sid with
  | none => (st, [])
  | some s =>
      match s.docId, s.roomId with
      | some _, some rid =>
          match alookup rid st.rooms with
          | none => (st, [])
          | some room =>
              ({ st with docs := st.docs.set room.docId (applyUpdate (getDoc st room.docId) update) },
               broadcast st sid room.clients "sync-update" (.bytes update))
      | _, _ => (st, [])

/-- `handleSyncRequest(ws)`: guard on `ws.doc`; reply to the requesting
socket only with `sync-response` carrying `Y.encodeStateVector(ws.doc)`.
`encSV` is the external `Y.encodeStateVector`. -/
def handleSyncRequest (encSV : Doc → Bytes) (st : ServerState) (sid : SessId) :
    ServerState × List Send :=
  match getSession st sid with
  | none => (st, [])
  | some s =>
      match s.docId with
      | none => (st, [])
      | some d => (st, [⟨sid, "sync-response", .bytes (encSV (getDoc st d))⟩])

/-- `handleAwarenessUpdate(ws, update)`: guard on `ws.roomId` and the room;
broadcast the update bytes verbatim, touching no state. -/
def handleAwarenessUpdate (st : ServerState) (sid : SessId) (update : Bytes) :
    ServerState × List Send :=
  match getSession st sid with
  | none => (st, [])
  | some s =>
      match s.roomId with
      | none => (st, [])
      | some rid =>
          match alookup rid st.rooms with
          | none => (st, [])
          | some room => (st, broadcast st sid room.clients "awareness-update" (.bytes update))

/-- `handleCustomMessage(ws, data)`: guard on `ws.roomId` and the room;
broadcast the payload verbatim, touching no state. -/
def handleCustomMessage (st : ServerState) (sid : SessId) (data : Payload) :
    ServerState × List Send :=
  match getSession st sid with
  | none => (st, [])
  | some s =>
      match s.roomId with
      | none => (st, [])
      | some rid =>
          match alookup rid st.rooms with
          | none => (st, [])
          | some room => (st, broadcast st sid room.clients "custom-message" data)

/-- An inbound buffer: either bytes on which `JSON.parse` throws (`garbage`,
caught by the `try`/`catch` in `handleMessage`) or a parsed JSON value. -/
inductive Wire where
  | garbage : Wire
  | val (v : JVal) : Wire

/-- `handleMessage(ws, data)`: parse, then dispatch on `message.type`; the
`instanceof Uint8Array` guards on sync/awareness updates; unknown types are
logged and dropped; parse failures are caught and dropped. -/
def handleMessage (encSV : Doc → Bytes) (st : ServerState) (sid : SessId) (w : Wire) :
    ServerState × List Send :=
  match w with
  | .garbage => (st, [])
  | .val v =>
      let m := parseMessage v
      match m.type with
      | some "sync-update" =>
          match m.data with
          | .bytes bs => handleSyncUpdate st sid bs
          | .json _ => (st, [])
      | some "sync-request" => handleSyncRequest encSV st sid
      | some "awareness-update" =>
          match m.data with
          | .bytes bs => handleAwarenessUpdate st sid bs
          | .json _ => (st, [])
      | some "custom-message" => handleCustomMessage st sid m.data
      | _ => (st, [])

/-! ## Heartbeat -/

/-- `ws.terminate()` and the resulting `close` event: `leaveRoom` on the
socket's room (when assigned) and removal from `wss.clients`. -/
def terminateSession (st : ServerState) (sid : SessId) : ServerState :=
  let st' :=
    match getSession st sid with
    | some s =>
        match s.roomId with
        | some rid => leaveRoom st sid rid
        | none => st
    | none => st
  { st' with sessions := aerase sid st'.sessions }

/-- One step of the heartbeat sweep on one socket: a socket found with
`isAlive` false is terminated; otherwise `isAlive` is cleared and a ping is
sent (the ping itself carries no payload we track). -/
def sweepOne (st : ServerState) (sid : SessId) : ServerState :=
  match getSession st sid with
  | none => st
  | some s =>
      if s.isAlive then
        { st with sessions := aset sid { s with isAlive := false } st.sessions }
      else
        terminateSession st sid

/-- One heartbeat sweep (`setInterval` body in `startHeartbeat`):
`wss.clients.forEach` over the sockets present when the sweep starts. -/
def sweep (st : ServerState) : ServerState :=
  (st.sessions.map Prod.fst).foldl sweepOne st

/-- The `pong` listener: a probe response sets `isAlive` back to true. -/
def pong (st : ServerState) (sid : SessId) : ServerState :=
  match getSession st sid with
  | none => st
  | some s => { st with sessions := aset sid { s with isAlive := true } st.sessions }

/-! ## Join/leave event sequences (for the registry invariant) -/

/-- A connection lifecycle event: a socket joining a room (the `connection`
handler calling `joinRoom`) or leaving it (the `close` handler calling
`leaveRoom`). -/
inductive REvent where
  | join (sid : SessId) (rid : String) : REvent
  | leave (sid : SessId) (rid : String) : REvent

/-- Run a sequence of join/leave events against the registry. -/
def runEvents (enc : Doc → Bytes) (st : ServerState) : List REvent → ServerState
  | [] => st
  | .join sid rid :: rest => runEvents enc (joinRoom enc st sid rid).1 rest
  | .leave sid rid :: rest => runEvents enc (leaveRoom st sid rid) rest

/-- The state of a freshly constructed server: no rooms, no sockets. -/
def initState : ServerState := ⟨[], [], []⟩

/-- A concrete instance of the abstract Yjs encoders (`Y.encodeStateAsUpdate`
/ `Y.encodeStateVector`), used to evaluate the theorems on closed inputs:
the concatenation of the journal. -/
def flattenEnc : Doc → Bytes := List.flatten

/-- A concrete state used to evaluate theorems on closed inputs: room `"r"`
with members 1 and 2 open and member 3 in a non-open ready state, all
sharing document 0. -/
def stA : ServerState :=
  ⟨[("r", ⟨0, [1, 2, 3]⟩)],
   [(1, ⟨true, some "r", some 0, true⟩), (2, ⟨true, some "r", some 0, true⟩),
    (3, ⟨true, some "r", some 0, false⟩)], [[]]⟩

/-- A concrete state used to evaluate theorems on closed inputs: socket 1
has no room or document assigned; socket 2 points at a room id that is not
in the registry. -/
def stB : ServerState :=
  ⟨[], [(1, ⟨true, none, none, true⟩), (2, ⟨true, some "gone", some 0, true⟩)], []⟩

/-- A concrete state used to evaluate theorems on closed inputs: socket 2 is
the sole member of room `"q"` and its alive flag is already false. -/
def stQ : ServerState := ⟨[("q", ⟨0, [2]⟩)], [(2, ⟨false, some "q", some 0, true⟩)], [[]]⟩

/-! ## Association list lemmas -/

theorem alookup_aset {α β : Type} [DecidableEq α] (k k' : α) (v : β) (l : List (α × β)) :
    alookup k (aset k' v l) = if k = k' then some v else alookup k l := by
  induction l with
  | nil => simp [aset, alookup]
  | cons p rest ih =>
      obtain ⟨a, b⟩ := p
      by_cases hk : k' = a
      · subst hk
        by_cases hka : k = k'
        · subst hka; simp [aset, alookup]
        · simp [aset, alookup, hka]
      · by_cases hka : k = a
        · subst hka
          have hkk : ¬k = k' := fun h => hk h.symm
          simp [aset, alookup, hk, hkk]
        · simp [aset, alookup, hk, hka, ih]

theorem alookup_aerase_ne {α β : Type} [DecidableEq α] {k k' : α} (h : k ≠ k')
    (l : List (α × β)) : alookup k (aerase k' l) = alookup k l := by
  induction l with
  | nil => simp [aerase]
  | cons p rest ih =>
      obtain ⟨a, b⟩ := p
      by_cases hk : k' = a
      · subst hk
        simp [aerase, alookup, h]
      · simp [aerase, alookup, hk, ih]

theorem alookup_eq_none_iff {α β : Type} [DecidableEq α] (k : α) (l : List (α × β)) :
    alookup k l = none ↔ k ∉ l.map Prod.fst := by
  induction l with
  | nil => simp [alookup]
  | cons p rest ih =>
      obtain ⟨a, b⟩ := p
      by_cases hk : k = a
      · subst hk; simp [alookup]
      · simp [alookup, hk, ih]

theorem aerase_sublist {α β : Type} [DecidableEq α] (k : α) (l : List (α × β)) :
    (aerase k l).Sublist l := by
  induction l with
  | nil => simp [aerase]
  | cons p rest ih =>
      obtain ⟨a, b⟩ := p
      by_cases hk : k = a
      · simp [aerase, hk]
      · simpa [aerase, hk] using ih.cons₂ (a, b)

theorem alookup_none_of_sublist {α β : Type} [DecidableEq α] {k : α}
    {l' l : List (α × β)} (hsub : l'.Sublist l) (h : alookup k l = none) :
    alookup k l' = none := by
  rw [alookup_eq_none_iff] at h ⊢
  exact fun hm => h ((hsub.map Prod.fst).mem hm)

theorem alookup_aerase_self {α β : Type} [DecidableEq α] (k : α) {l : List (α × β)}
    (hnd : (l.map Prod.fst).Nodup) : alookup k (aerase k l) = none := by
  induction l with
  | nil => simp [aerase, alookup]
  | cons p rest ih =>
      obtain ⟨a, b⟩ := p
      simp only [List.map_cons, List.nodup_cons] at hnd
      by_cases hk : k = a
      · subst hk
        simpa [aerase, alookup_eq_none_iff] using hnd.1
      · simp [aerase, alookup, hk, Ne.symm hk, ih hnd.2]

theorem keys_aset_some {α β : Type} [DecidableEq α] {k : α} {v w : β} {l : List (α × β)}
    (h : alookup k l = some w) : (aset k v l).map Prod.fst = l.map Prod.fst := by
  induction l with
  | nil => simp [alookup] at h
  | cons p rest ih =>
      obtain ⟨a, b⟩ := p
      by_cases hk : k = a
      · simp [aset, hk]
      · simp only [alookup, if_neg hk] at h
        simp [aset, Ne.symm hk, hk, ih h]

theorem aset_append_of_none {α β : Type} [DecidableEq α] {k : α} (v : β) {l : List (α × β)}
    (h : alookup k l = none) : aset k v l = l ++ [(k, v)] := by
  induction l with
  | nil => simp [aset]
  | cons p rest ih =>
      obtain ⟨a, b⟩ := p
      by_cases hk : k = a
      · simp [alookup, hk] at h
      · simp only [alookup, if_neg hk] at h
        simp [aset, Ne.symm hk, hk, ih h]

theorem nodup_keys_aset {α β : Type} [DecidableEq α] (k : α) (v : β) {l : List (α × β)}
    (hnd : (l.map Prod.fst).Nodup) : ((aset k v l).map Prod.fst).Nodup := by
  cases h : alookup k l with
  | some w => rwa [keys_aset_some h]
  | none =>
      rw [aset_append_of_none v h]
      rw [alookup_eq_none_iff] at h
      simp only [List.map_append, List.map_cons, List.map_nil]
      exact List.nodup_append.2
        ⟨hnd, List.nodup_singleton k, fun a ha hb => h ((List.mem_singleton.mp hb) ▸ ha)⟩

theorem nodup_keys_aerase {α β : Type} [DecidableEq α] (k : α) {l : List (α × β)}
    (hnd : (l.map Prod.fst).Nodup) : ((aerase k l).map Prod.fst).Nodup :=
  hnd.sublist ((aerase_sublist k l).map Prod.fst)

theorem mem_keys_of_alookup {α β : Type} [DecidableEq α] {k : α} {v : β} {l : List (α × β)}
    (h : alookup k l = some v) : k ∈ l.map Prod.fst := by
  by_contra hm
  rw [← alookup_eq_none_iff (β := β)] at hm
  rw [hm] at h
  exact Option.noConfusion h

theorem alookup_mem_pair {α β : Type} [DecidableEq α] {k : α} {v : β} {l : List (α × β)}
    (h : alookup k l = some v) : (k, v) ∈ l := by
  induction l with
  | nil => simp [alookup] at h
  | cons p rest ih =>
      obtain ⟨a, b⟩ := p
      by_cases hk : k = a
      · subst hk
        simp only [alookup, if_pos rfl] at h
        cases h
        exact List.mem_cons_self _ _
      · simp only [alookup, if_neg hk] at h
        exact List.mem_cons_of_mem _ (ih h)

theorem mem_aset_sub {α β : Type} [DecidableEq α] {k : α} {v : β} {p : α × β}
    {l : List (α × β)} (h : p ∈ aset k v l) : p = (k, v) ∨ p ∈ l := by
  induction l with
  | nil => simpa [aset] using h
  | cons q rest ih =>
      obtain ⟨a, b⟩ := q
      by_cases hk : k = a
      · simp only [aset, if_pos hk] at h
        rcases List.mem_cons.mp h with rfl | hm
        · exact Or.inl rfl
        · exact Or.inr (List.mem_cons_of_mem _ hm)
      · simp only [aset, if_neg hk] at h
        rcases List.mem_cons.mp h with rfl | hm
        · exact Or.inr (List.mem_cons_self _ _)
        · rcases ih hm with hp | hp
          · exact Or.inl hp
          · exact Or.inr (List.mem_cons_of_mem _ hp)

theorem addClient_ne_nil (sid : SessId) (cs : List SessId) : addClient sid cs ≠ [] := by
  unfold addClient
  split
  · intro h; subst h; simp_all
  · simp

/-! ## Registry well-formedness through join/leave -/

/-- The registry is well formed: its keys are duplicate-free (a JavaScript
`Map`) and every registered room has at least one member. -/
def RegWF (st : ServerState) : Prop :=
  (st.rooms.map Prod.fst).Nodup ∧
    ∀ rid rd, alookup rid st.rooms = some rd → rd.clients ≠ []

theorem joinRoom_regWF (enc : Doc → Bytes) (st : ServerState) (sid : SessId)
    (roomId : String) (h : RegWF st) : RegWF (joinRoom enc st sid roomId).1 := by
  obtain ⟨hnd, hne⟩ := h
  cases hlk : alookup roomId st.rooms with
  | some room =>
      constructor
      · simpa [joinRoom, hlk] using nodup_keys_aset roomId _ hnd
      · intro rid rd hrd
        simp only [joinRoom, hlk] at hrd
        rw [alookup_aset] at hrd
        split at hrd
        · cases hrd; exact addClient_ne_nil _ _
        · exact hne rid rd hrd
  | none =>
      constructor
      · simpa [joinRoom, hlk] using
          nodup_keys_aset roomId _ (nodup_keys_aset roomId _ hnd)
      · intro rid rd hrd
        simp only [joinRoom, hlk] at hrd
        rw [alookup_aset] at hrd
        split at hrd
        · cases hrd; exact addClient_ne_nil _ _
        · rw [alookup_aset] at hrd
          split at hrd
          · simp_all
          · exact hne rid rd hrd

theorem leaveRoom_regWF (st : ServerState) (sid : SessId) (roomId : String)
    (h : RegWF st) : RegWF (leaveRoom st sid roomId) := by
  obtain ⟨hnd, hne⟩ := h
  unfold leaveRoom
  cases hlk : alookup roomId st.rooms with
  | none => exact ⟨hnd, hne⟩
  | some room =>
      simp only
      split
      · refine ⟨nodup_keys_aerase roomId hnd, fun rid rd hrd => ?_⟩
        have hrne : rid ≠ roomId := by
          rintro rfl
          rw [alookup_aerase_self rid hnd] at hrd
          exact Option.noConfusion hrd
        rw [alookup_aerase_ne hrne] at hrd
        exact hne rid rd hrd
      · refine ⟨nodup_keys_aset roomId _ hnd, fun rid rd hrd => ?_⟩
        rw [alookup_aset] at hrd
        split at hrd
        · cases hrd
          simp_all [List.isEmpty_iff]
        · exact hne rid rd hrd

theorem runEvents_regWF (enc : Doc → Bytes) (evs : List REvent) (st : ServerState)
    (h : RegWF st) : RegWF (runEvents enc st evs) := by
  induction evs generalizing st with
  | nil => exact h
  | cons e rest ih =>
      cases e with
      | join sid rid => exact ih _ (joinRoom_regWF enc st sid rid h)
      | leave sid rid => exact ih _ (leaveRoom_regWF st sid rid h)

/-- Claim C1: along every sequence of joins and leaves from the initial
state, a room id is in the registry only with a non-empty member set;
a join for an id not in the registry creates the room with a fresh document
and the joiner as sole member; and the leave that removes the last member
deletes the room from the registry synchronously. -/
theorem claim_room_registry_invariant (enc : Doc → Bytes) (evs : List REvent) :
    (∀ rid rd, alookup rid (runEvents enc initState evs).rooms = some rd →
        rd.clients ≠ []) ∧
    (∀ t : ServerState, ∀ sid rid, alookup rid t.rooms = none →
        alookup rid (joinRoom enc t sid rid).1.rooms = some ⟨t.docs.length, [sid]⟩ ∧
        (joinRoom enc t sid rid).1.docs = t.docs ++ [newDoc]) ∧
    (∀ t : ServerState, ∀ sid rid room, (t.rooms.map Prod.fst).Nodup →
        alookup rid t.rooms = some room → room.clients = [sid] →
        alookup rid (leaveRoom t sid rid).rooms = none) := by
  refine ⟨?_, ?_, ?_⟩
  · exact (runEvents_regWF enc evs initState ⟨List.nodup_nil, by simp [alookup]⟩).2
  · intro t sid rid h
    constructor
    · simp [joinRoom, h, alookup_aset, addClient]
    · simp [joinRoom, h]
  · intro t sid rid room hnd h hc
    simp only [leaveRoom, h, hc, List.erase_cons_head, List.isEmpty_nil, if_true]
    exact alookup_aerase_self rid hnd

/-- Closed instance of claim C1's theorem: a join then a leave in a
two-event run, with each hypothesis checked on the concrete registry. -/
theorem claim_room_registry_invariant_witness :
    ((RoomData.mk 0 [1]).clients ≠ []) ∧
    (alookup "r" (joinRoom flattenEnc initState 1 "r").1.rooms = some ⟨0, [1]⟩) ∧
    (alookup "r" (leaveRoom (runEvents flattenEnc initState [.join 1 "r"]) 1 "r").rooms
        = none) := by
  have h := claim_room_registry_invariant flattenEnc [.join 1 "r"]
  exact ⟨h.1 "r" ⟨0, [1]⟩ (by decide),
    (h.2.1 initState 1 "r" (by decide)).1,
    h.2.2 (runEvents flattenEnc initState [.join 1 "r"]) 1 "r" ⟨0, [1]⟩
      (by decide) (by decide) rfl⟩

/-- Claim C3: at join time the joining socket is sent exactly one
`sync-update` frame with the full encoded document state when that encoding
is non-empty, and nothing at all when the encoding has length zero. -/
theorem claim_late_join_bootstrap (enc : Doc → Bytes) (st : ServerState) (sid : SessId)
    (rid : String) :
    (joinRoom enc st sid rid).2 =
      if (enc (joinDoc st rid)).length > 0 then
        [⟨sid, "sync-update", Payload.bytes (enc (joinDoc st rid))⟩]
      else [] := by
  cases h : alookup rid st.rooms with
  | some room => simp [joinRoom, joinDoc, h, getDoc]
  | none =>
      have hd : (st.docs ++ [newDoc]).getD st.docs.length [] = newDoc := by
        simp [List.getD_eq_getElem?_getD]
      simp [joinRoom, joinDoc, h, alookup_aset, hd]

/-! ## Broadcast fan-out -/

theorem broadcast_sound {st : ServerState} {sender : SessId} {clients : List SessId}
    {ty : String} {da : Payload} {snd : Send}
    (h : snd ∈ broadcast st sender clients ty da) :
    snd.target ∈ clients ∧ snd.target ≠ sender ∧ sessionOpen st snd.target = true ∧
      snd.type = ty ∧ snd.data = da := by
  unfold broadcast at h
  obtain ⟨c, hc, rfl⟩ := List.mem_map.mp h
  obtain ⟨hmem, hcond⟩ := List.mem_filter.mp hc
  simp only [Bool.and_eq_true, bne_iff_ne] at hcond
  exact ⟨hmem, hcond.1, hcond.2, rfl, rfl⟩

theorem broadcast_complete {st : ServerState} {sender : SessId} {clients : List SessId}
    {ty : String} {da : Payload} {c : SessId}
    (hmem : c ∈ clients) (hne : c ≠ sender) (hopen : sessionOpen st c = true) :
    (⟨c, ty, da⟩ : Send) ∈ broadcast st sender clients ty da := by
  unfold broadcast
  exact List.mem_map.mpr ⟨c, List.mem_filter.mpr ⟨hmem, by simp [hne, hopen]⟩, rfl⟩

/-- Claim C2: a `sync-update` from a member with an assigned document and a
registered room applies exactly the received payload to that room's
document, relays the same payload bytes as a `sync-update` to (open) members
of the same room other than the sender, and sends nothing to any session
outside the room's member set. -/
theorem claim_sync_update_apply_and_relay (st : ServerState) (sid : SessId) (u : Bytes)
    (s : Session) (d0 : Nat) (rid : String) (room : RoomData)
    (hs : getSession st sid = some s) (hd : s.docId = some d0) (hr : s.roomId = some rid)
    (hroom : alookup rid st.rooms = some room) :
    (handleSyncUpdate st sid u).1 =
      { st with docs := st.docs.set room.docId (applyUpdate (getDoc st room.docId) u) } ∧
    (∀ snd ∈ (handleSyncUpdate st sid u).2,
        snd.target ∈ room.clients ∧ snd.target ≠ sid ∧
        snd.type = "sync-update" ∧ snd.data = Payload.bytes u) ∧
    (∀ c ∈ room.clients, c ≠ sid → sessionOpen st c = true →
        (⟨c, "sync-update", Payload.bytes u⟩ : Send) ∈ (handleSyncUpdate st sid u).2) := by
  have hrun : handleSyncUpdate st sid u =
      ({ st with docs := st.docs.set room.docId (applyUpdate (getDoc st room.docId) u) },
       broadcast st sid room.clients "sync-update" (Payload.bytes u)) := by
    simp [handleSyncUpdate, hs, hd, hr, hroom]
  refine ⟨by rw [hrun], ?_, ?_⟩
  · intro snd hsnd
    rw [hrun] at hsnd
    obtain ⟨h1, h2, _, h4, h5⟩ := broadcast_sound hsnd
    exact ⟨h1, h2, h4, h5⟩
  · intro c hc hne hopen
    rw [hrun]
    exact broadcast_complete hc hne hopen

/-- Closed instance of claim C2's theorem: a room with an open peer and a
closed peer; each hypothesis is checked on the concrete state. -/
theorem claim_sync_update_apply_and_relay_witness :
    ((handleSyncUpdate stA 1 [5]).1 =
      { stA with docs := stA.docs.set 0 (applyUpdate (getDoc stA 0) [5]) }) ∧
    ((⟨2, "sync-update", Payload.bytes [5]⟩ : Send) ∈ (handleSyncUpdate stA 1 [5]).2) := by
  have h := claim_sync_update_apply_and_relay stA 1 [5] ⟨true, some "r", some 0, true⟩
    0 "r" ⟨0, [1, 2, 3]⟩ (by decide) rfl rfl (by decide)
  exact ⟨h.1, h.2.2 2 (by decide) (by decide) (by decide)⟩

/-- Claim C4: for each of the three broadcast kinds, the fan-out never
targets the originating socket, only targets sockets in an open ready
state (non-open members are skipped), and still reaches every other open
member of the room. -/
theorem claim_broadcast_exclude_self_skip_closed (st : ServerState) (sid : SessId)
    (u : Bytes) (pay : Payload) (s : Session) (d0 : Nat) (rid : String) (room : RoomData)
    (hs : getSession st sid = some s) (hd : s.docId = some d0) (hr : s.roomId = some rid)
    (hroom : alookup rid st.rooms = some room) :
    (∀ snd ∈ (handleSyncUpdate st sid u).2,
        snd.target ≠ sid ∧ sessionOpen st snd.target = true) ∧
    (∀ snd ∈ (handleAwarenessUpdate st sid u).2,
        snd.target ≠ sid ∧ sessionOpen st snd.target = true) ∧
    (∀ snd ∈ (handleCustomMessage st sid pay).2,
        snd.target ≠ sid ∧ sessionOpen st snd.target = true) ∧
    (∀ c ∈ room.clients, c ≠ sid → sessionOpen st c = true →
        (⟨c, "sync-update", Payload.bytes u⟩ : Send) ∈ (handleSyncUpdate st sid u).2 ∧
        (⟨c, "awareness-update", Payload.bytes u⟩ : Send)
          ∈ (handleAwarenessUpdate st sid u).2 ∧
        (⟨c, "custom-message", pay⟩ : Send) ∈ (handleCustomMessage st sid pay).2) := by
  have h1 : (handleSyncUpdate st sid u).2 =
      broadcast st sid room.clients "sync-update" (Payload.bytes u) := by
    simp [handleSyncUpdate, hs, hd, hr, hroom]
  have h2 : (handleAwarenessUpdate st sid u).2 =
      broadcast st sid room.clients "awareness-update" (Payload.bytes u) := by
    simp [handleAwarenessUpdate, hs, hr, hroom]
  have h3 : (handleCustomMessage st sid pay).2 =
      broadcast st sid room.clients "custom-message" pay := by
    simp [handleCustomMessage, hs, hr, hroom]
  refine ⟨?_, ?_, ?_, ?_⟩
  · intro snd hsnd
    rw [h1] at hsnd
    obtain ⟨_, hne, hop, _, _⟩ := broadcast_sound hsnd
    exact ⟨hne, hop⟩
  · intro snd hsnd
    rw [h2] at hsnd
    obtain ⟨_, hne, hop, _, _⟩ := broadcast_sound hsnd
    exact ⟨hne, hop⟩
  · intro snd hsnd
    rw [h3] at hsnd
    obtain ⟨_, hne, hop, _, _⟩ := broadcast_sound hsnd
    exact ⟨hne, hop⟩
  · intro c hc hne hopen
    exact ⟨h1 ▸ broadcast_complete hc hne hopen, h2 ▸ broadcast_complete hc hne hopen,
      h3 ▸ broadcast_complete hc hne hopen⟩

/-- Closed instance of claim C4's theorem: in `stA`, socket 3 is not open,
so the open peer 2 is reached by all three kinds while each hypothesis is
checked concretely. -/
theorem claim_broadcast_exclude_self_skip_closed_witness :
    (⟨2, "sync-update", Payload.bytes [5]⟩ : Send) ∈ (handleSyncUpdate stA 1 [5]).2 ∧
    (⟨2, "awareness-update", Payload.bytes [5]⟩ : Send)
      ∈ (handleAwarenessUpdate stA 1 [5]).2 ∧
    (⟨2, "custom-message", Payload.json (JVal.str "m")⟩ : Send)
      ∈ (handleCustomMessage stA 1 (Payload.json (JVal.str "m"))).2 :=
  (claim_broadcast_exclude_self_skip_closed stA 1 [5] (Payload.json (JVal.str "m"))
    ⟨true, some "r", some 0, true⟩ 0 "r" ⟨0, [1, 2, 3]⟩
    (by decide) rfl rfl (by decide)).2.2.2 2 (by decide) (by decide) (by decide)

/-- Claim C6: awareness and custom frames leave every part of the server
state unchanged (for any state at all), and relay the received payload
value verbatim to the other (open) members of the sender's room and to
nobody outside its member set. -/
theorem claim_relay_verbatim_stateless (st : ServerState) (sid : SessId) (u : Bytes)
    (pay : Payload) (s : Session) (rid : String) (room : RoomData)
    (hs : getSession st sid = some s) (hr : s.roomId = some rid)
    (hroom : alookup rid st.rooms = some room) :
    (∀ (t : ServerState) (x : SessId) (w : Bytes), (handleAwarenessUpdate t x w).1 = t) ∧
    (∀ (t : ServerState) (x : SessId) (p : Payload), (handleCustomMessage t x p).1 = t) ∧
    (∀ snd ∈ (handleAwarenessUpdate st sid u).2,
        snd.target ∈ room.clients ∧ snd.target ≠ sid ∧
        snd.type = "awareness-update" ∧ snd.data = Payload.bytes u) ∧
    (∀ snd ∈ (handleCustomMessage st sid pay).2,
        snd.target ∈ room.clients ∧ snd.target ≠ sid ∧
        snd.type = "custom-message" ∧ snd.data = pay) ∧
    (∀ c ∈ room.clients, c ≠ sid → sessionOpen st c = true →
        (⟨c, "awareness-update", Payload.bytes u⟩ : Send)
          ∈ (handleAwarenessUpdate st sid u).2 ∧
        (⟨c, "custom-message", pay⟩ : Send) ∈ (handleCustomMessage st sid pay).2) := by
  have h2 : (handleAwarenessUpdate st sid u).2 =
      broadcast st sid room.clients "awareness-update" (Payload.bytes u) := by
    simp [handleAwarenessUpdate, hs, hr, hroom]
  have h3 : (handleCustomMessage st sid pay).2 =
      broadcast st sid room.clients "custom-message" pay := by
    simp [handleCustomMessage, hs, hr, hroom]
  refine ⟨?_, ?_, ?_, ?_, ?_⟩
  · intro t x w
    unfold handleAwarenessUpdate
    cases getSession t x with
    | none => rfl
    | some s' =>
        rcases hx : s'.roomId with _ | rid'
        · simp [hx]
        · rcases hy : alookup rid' t.rooms with _ | room' <;> simp [hx, hy]
  · intro t x p
    unfold handleCustomMessage
    cases getSession t x with
    | none => rfl
    | some s' =>
        rcases hx : s'.roomId with _ | rid'
        · simp [hx]
        · rcases hy : alookup rid' t.rooms with _ | room' <;> simp [hx, hy]
  · intro snd hsnd
    rw [h2] at hsnd
    obtain ⟨h1, hne, _, hty, hda⟩ := broadcast_sound hsnd
    exact ⟨h1, hne, hty, hda⟩
  · intro snd hsnd
    rw [h3] at hsnd
    obtain ⟨h1, hne, _, hty, hda⟩ := broadcast_sound hsnd
    exact ⟨h1, hne, hty, hda⟩
  · intro c hc hne hopen
    exact ⟨h2 ▸ broadcast_complete hc hne hopen, h3 ▸ broadcast_complete hc hne hopen⟩

/-- Closed instance of claim C6's theorem: state unchanged and verbatim
relay to the open peer, with each hypothesis checked concretely. -/
theorem claim_relay_verbatim_stateless_witness :
    ((handleAwarenessUpdate stA 1 [7]).1 = stA) ∧
    ((⟨2, "custom-message", Payload.json JVal.null⟩ : Send)
      ∈ (handleCustomMessage stA 1 (Payload.json JVal.null)).2) := by
  have h := claim_relay_verbatim_stateless stA 1 [7] (Payload.json JVal.null)
    ⟨true, some "r", some 0, true⟩ "r" ⟨0, [1, 2, 3]⟩ (by decide) rfl (by decide)
  exact ⟨h.1 stA 1 [7], (h.2.2.2.2 2 (by decide) (by decide) (by decide)).2⟩

/-- Claim C9: a `sync-request` from a socket with an assigned document (the
document of its registered room) is answered to the requesting socket only,
with a single `sync-response` frame carrying the room document's encoded
state vector, and the state is unchanged. -/
theorem claim_sync_request_reply (encSV : Doc → Bytes) (st : ServerState) (sid : SessId)
    (s : Session) (d0 : Nat) (rid : String) (room : RoomData)
    (hs : getSession st sid = some s) (hd : s.docId = some d0)
    (hr : s.roomId = some rid) (hroom : alookup rid st.rooms = some room)
    (hdoc : room.docId = d0) :
    handleSyncRequest encSV st sid =
      (st, [⟨sid, "sync-response", Payload.bytes (encSV (getDoc st room.docId))⟩]) := by
  simp [handleSyncRequest, hs, hd, hdoc]

/-- Closed instance of claim C9's theorem, with each hypothesis checked on
the concrete state. -/
theorem claim_sync_request_reply_witness :
    handleSyncRequest flattenEnc stA 1 =
      (stA, [⟨1, "sync-response", Payload.bytes (flattenEnc (getDoc stA 0))⟩]) :=
  claim_sync_request_reply flattenEnc stA 1 ⟨true, some "r", some 0, true⟩ 0 "r"
    ⟨0, [1, 2, 3]⟩ (by decide) rfl rfl (by decide) rfl

/-- Counterexample to claim C10 as stated: socket 2 of `stB` has an
assigned document but its room id `"gone"` is absent from the registry, yet
`handleSyncRequest` — which guards only on `ws.doc` — still sends a
`sync-response` to it, so handling a `sync-request` in that degenerate state
does not "return without sending anything". -/
theorem claim_handlers_total_noop_cex :
    alookup "gone" stB.rooms = none ∧
    (handleSyncRequest flattenEnc stB 2).2 ≠ [] := by
  refine ⟨rfl, ?_⟩
  intro h
  have hv : (handleSyncRequest flattenEnc stB 2).2 =
      [⟨2, "sync-response", Payload.bytes []⟩] := rfl
  rw [hv] at h
  exact List.noConfusion h

/-- Claim C10 (amended): the `sync-update`, `awareness-update` and
`custom-message` handlers and `leaveRoom` are total no-ops on the degenerate
session states — no document, no room, or a room id absent from the
registry — returning the state unchanged and sending nothing; `handleSyncRequest`
is a no-op exactly when the session has no assigned document, and with an
assigned document it replies with one `sync-response` computed from `ws.doc`
alone, regardless of the session's room or its registration (see the
counterexample).  None of these paths raises an error. -/
theorem claim_handlers_total_noop (encSV : Doc → Bytes) (st : ServerState) (sid : SessId)
    (u : Bytes) (pay : Payload) (s : Session) (rid : String) (d0 : Nat)
    (hs : getSession st sid = some s) :
    (s.docId = none →
        handleSyncUpdate st sid u = (st, []) ∧
        handleSyncRequest encSV st sid = (st, [])) ∧
    (s.roomId = none →
        handleSyncUpdate st sid u = (st, []) ∧
        handleAwarenessUpdate st sid u = (st, []) ∧
        handleCustomMessage st sid pay = (st, [])) ∧
    (s.roomId = some rid → alookup rid st.rooms = none →
        handleSyncUpdate st sid u = (st, []) ∧
        handleAwarenessUpdate st sid u = (st, []) ∧
        handleCustomMessage st sid pay = (st, [])) ∧
    (alookup rid st.rooms = none → leaveRoom st sid rid = st) ∧
    (s.docId = some d0 →
        handleSyncRequest encSV st sid =
          (st, [⟨sid, "sync-response", Payload.bytes (encSV (getDoc st d0))⟩])) := by
  refine ⟨?_, ?_, ?_, ?_, ?_⟩
  · intro h
    refine ⟨?_, by simp [handleSyncRequest, hs, h]⟩
    rcases hx : s.roomId with _ | rid' <;> simp [handleSyncUpdate, hs, h, hx]
  · intro h
    refine ⟨?_, by simp [handleAwarenessUpdate, hs, h], by simp [handleCustomMessage, hs, h]⟩
    rcases hx : s.docId with _ | d1 <;> simp [handleSyncUpdate, hs, h, hx]
  · intro h hroom
    refine ⟨?_, by simp [handleAwarenessUpdate, hs, h, hroom],
      by simp [handleCustomMessage, hs, h, hroom]⟩
    rcases hx : s.docId with _ | d1 <;> simp [handleSyncUpdate, hs, h, hx, hroom]
  · intro h
    simp [leaveRoom, h]
  · intro h
    simp [handleSyncRequest, hs, h]

/-- Closed instance of claim C10's amended theorem: socket 1 of `stB` has no
room or document; socket 2's room id is not registered yet its sync-request
is answered; each hypothesis is checked concretely. -/
theorem claim_handlers_total_noop_witness :
    (handleSyncUpdate stB 1 [1] = (stB, []) ∧
      handleSyncRequest flattenEnc stB 1 = (stB, [])) ∧
    (handleCustomMessage stB 2 (Payload.json JVal.null) = (stB, [])) ∧
    (leaveRoom stB 2 "gone" = stB) ∧
    (handleSyncRequest flattenEnc stB 2 =
      (stB, [⟨2, "sync-response", Payload.bytes (flattenEnc (getDoc stB 0))⟩])) := by
  have h1 := claim_handlers_total_noop flattenEnc stB 1 [1] (Payload.json JVal.null)
    ⟨true, none, none, true⟩ "gone" 0 (by decide)
  have h2 := claim_handlers_total_noop flattenEnc stB 2 [1] (Payload.json JVal.null)
    ⟨true, some "gone", some 0, true⟩ "gone" 0 (by decide)
  exact ⟨h1.1 rfl, (h2.2.2.1 rfl (by decide)).2.2, h2.2.2.2.1 (by decide),
    h2.2.2.2.2 rfl⟩

/-- Claim C7: a buffer that fails to decode, a frame whose `type` is not a
string, and a frame whose kind is none of the dispatched kinds are all
dropped with no state change and no sends, and a subsequent frame on any
socket is then handled exactly as it would have been before. -/
theorem claim_malformed_and_unknown_dropped (encSV : Doc → Bytes) (st : ServerState)
    (sid sid' : SessId) (v : JVal) (k : String) :
    (handleMessage encSV st sid Wire.garbage = (st, [])) ∧
    ((parseMessage v).type = none → handleMessage encSV st sid (Wire.val v) = (st, [])) ∧
    ((parseMessage v).type = some k →
        k ≠ "sync-update" → k ≠ "sync-request" → k ≠ "awareness-update" →
        k ≠ "custom-message" →
        handleMessage encSV st sid (Wire.val v) = (st, [])) ∧
    (∀ w' : Wire,
        handleMessage encSV (handleMessage encSV st sid Wire.garbage).1 sid' w' =
          handleMessage encSV st sid' w') ∧
    (∀ w' : Wire, (parseMessage v).type = some k →
        k ≠ "sync-update" → k ≠ "sync-request" → k ≠ "awareness-update" →
        k ≠ "custom-message" →
        handleMessage encSV (handleMessage encSV st sid (Wire.val v)).1 sid' w' =
          handleMessage encSV st sid' w') := by
  have hunknown : (parseMessage v).type = some k →
      k ≠ "sync-update" → k ≠ "sync-request" → k ≠ "awareness-update" →
      k ≠ "custom-message" →
      handleMessage encSV st sid (Wire.val v) = (st, []) := by
    intro h h1 h2 h3 h4
    unfold handleMessage
    simp only [h]
    split
    all_goals simp_all
  refine ⟨rfl, ?_, hunknown, fun w' => rfl, ?_⟩
  · intro h
    unfold handleMessage
    simp only [h]
  · intro w' h h1 h2 h3 h4
    rw [hunknown h h1 h2 h3 h4]

/-- Closed instance of claim C7's theorem: an unknown kind `"ping"` and a
frame whose `type` is a number, each checked concretely. -/
theorem claim_malformed_and_unknown_dropped_witness :
    (handleMessage flattenEnc stA 1 Wire.garbage = (stA, [])) ∧
    (handleMessage flattenEnc stA 1
        (Wire.val (JVal.obj [("type", JVal.str "ping")])) = (stA, [])) ∧
    (handleMessage flattenEnc stA 1
        (Wire.val (JVal.obj [("type", JVal.num 3)])) = (stA, [])) := by
  have h1 := claim_malformed_and_unknown_dropped flattenEnc stA 1 2
    (JVal.obj [("type", JVal.str "ping")]) "ping"
  have h2 := claim_malformed_and_unknown_dropped flattenEnc stA 1 2
    (JVal.obj [("type", JVal.num 3)]) "ping"
  exact ⟨h1.1,
    h1.2.2.1 rfl (by decide) (by decide) (by decide) (by decide),
    h2.2.1 rfl⟩

/-- Counterexample to claim C5 as stated: a structured payload that happens
to be a JSON array — here the empty array sent as a `custom-message` — does
not pass through decode unchanged, because `parseMessage` turns every array
into a byte sequence (`new Uint8Array(message.data)`). -/
theorem claim_codec_roundtrip_cex :
    (parseMessage (createMessage "custom-message" (Payload.json (JVal.arr [])) 0)).data ≠
      Payload.json (JVal.arr []) := by
  intro h
  have hv : (parseMessage (createMessage "custom-message"
      (Payload.json (JVal.arr [])) 0)).data = Payload.bytes [] := rfl
  rw [hv] at h
  exact Payload.noConfusion h

/-- Claim C5 (amended): decoding an encoded frame always recovers the
original kind; a byte-sequence payload (bytes below 256) is reconstituted
exactly; a structured payload that is not an array passes through
unchanged.  (A structured payload that is an array is instead reconstituted
as a byte sequence — see the counterexample.) -/
theorem claim_codec_roundtrip (k : String) (ts : Nat) :
    (∀ bs : Bytes, (∀ b ∈ bs, b < 256) →
        parseMessage (createMessage k (Payload.bytes bs) ts) = ⟨some k, Payload.bytes bs⟩) ∧
    (∀ v : JVal, v.isArr = false →
        parseMessage (createMessage k (Payload.json v) ts) = ⟨some k, Payload.json v⟩) := by
  constructor
  · intro bs h
    have h1 : ∀ b ∈ bs, toUint8 (JVal.num ((b : Nat) : Int)) = b := by
      intro b hb
      have hb' := h b hb
      simp only [toUint8]
      omega
    have h2 : List.map (fun b : Nat => toUint8 (JVal.num ((b : Nat) : Int))) bs = bs := by
      rw [List.map_congr_left h1]
      simp
    simp [parseMessage, createMessage, payloadToWire, JVal.field, jfield,
      List.map_map, Function.comp_def, h2]
  · intro v hv
    cases v <;>
      simp_all [parseMessage, createMessage, payloadToWire, JVal.field, jfield, JVal.isArr]

/-- Closed instance of claim C5's amended theorem: a byte payload and a
non-array structured payload, each hypothesis checked concretely. -/
theorem claim_codec_roundtrip_witness :
    (parseMessage (createMessage "sync-update" (Payload.bytes [1, 2, 255]) 5) =
      ⟨some "sync-update", Payload.bytes [1, 2, 255]⟩) ∧
    (parseMessage (createMessage "custom-message" (Payload.json (JVal.str "hi")) 5) =
      ⟨some "custom-message", Payload.json (JVal.str "hi")⟩) :=
  ⟨(claim_codec_roundtrip "sync-update" 5).1 [1, 2, 255] (by decide),
   (claim_codec_roundtrip "custom-message" 5).2 (JVal.str "hi") rfl⟩

/-! ## Heartbeat sweep lemmas -/

theorem leaveRoom_sessions (st : ServerState) (sid : SessId) (rid : String) :
    (leaveRoom st sid rid).sessions = st.sessions := by
  unfold leaveRoom
  cases alookup rid st.rooms with
  | none => rfl
  | some room =>
      dsimp only
      split <;> rfl

theorem leaveRoom_eq_of_none {st : ServerState} {sid : SessId} {rid : String}
    (h : alookup rid st.rooms = none) : leaveRoom st sid rid = st := by
  simp [leaveRoom, h]

theorem leaveRoom_eq_of_some_empty {st : ServerState} {sid : SessId} {rid : String}
    {room : RoomData} (h : alookup rid st.rooms = some room)
    (he : (room.clients.erase sid).isEmpty = true) :
    leaveRoom st sid rid = { st with rooms := aerase rid st.rooms } := by
  unfold leaveRoom
  rw [h]
  dsimp only
  rw [if_pos he]

theorem leaveRoom_eq_of_some_nonempty {st : ServerState} {sid : SessId} {rid : String}
    {room : RoomData} (h : alookup rid st.rooms = some room)
    (he : (room.clients.erase sid).isEmpty = false) :
    leaveRoom st sid rid =
      { st with
        rooms := aset rid { room with clients := room.clients.erase sid } st.rooms } := by
  unfold leaveRoom
  rw [h]
  dsimp only
  rw [if_neg (by simp [he])]

theorem terminateSession_sessions (st : ServerState) (x : SessId) :
    (terminateSession st x).sessions = aerase x st.sessions := by
  unfold terminateSession
  cases hx : getSession st x with
  | none => rfl
  | some s =>
      rcases hr : s.roomId with _ | rid
      · simp [hr]
      · simp [hr, leaveRoom_sessions]

theorem sweepOne_getSession_ne {st : ServerState} {x sid : SessId} (hne : x ≠ sid) :
    getSession (sweepOne st x) sid = getSession st sid := by
  unfold sweepOne
  cases hx : getSession st x with
  | none => rfl
  | some s =>
      dsimp only
      by_cases ha : s.isAlive = true
      · rw [if_pos ha]
        show alookup sid (aset x _ st.sessions) = _
        rw [alookup_aset, if_neg (Ne.symm hne)]
        rfl
      · rw [if_neg ha]
        show alookup sid (terminateSession st x).sessions = _
        rw [terminateSession_sessions, alookup_aerase_ne (Ne.symm hne)]
        rfl

theorem sweepOne_of_none {st : ServerState} {sid : SessId}
    (h : getSession st sid = none) : sweepOne st sid = st := by
  unfold sweepOne
  rw [h]

theorem sweepOne_alive {st : ServerState} {sid : SessId} {s : Session}
    (hs : getSession st sid = some s) (ha : s.isAlive = true) :
    sweepOne st sid = { st with sessions := aset sid { s with isAlive := false } st.sessions } := by
  unfold sweepOne
  rw [hs]
  dsimp only
  rw [if_pos ha]

theorem sweepOne_dead {st : ServerState} {sid : SessId} {s : Session}
    (hs : getSession st sid = some s) (ha : s.isAlive = false) :
    sweepOne st sid = terminateSession st sid := by
  unfold sweepOne
  rw [hs]
  dsimp only
  rw [if_neg (by simp [ha])]

theorem foldl_sweep_getSession_not_mem {keys : List SessId} {st : ServerState}
    {sid : SessId} (h : sid ∉ keys) :
    getSession (keys.foldl sweepOne st) sid = getSession st sid := by
  induction keys generalizing st with
  | nil => rfl
  | cons x rest ih =>
      rw [List.foldl_cons, ih (fun hm => h (List.mem_cons_of_mem x hm))]
      exact sweepOne_getSession_ne (fun he => h (he ▸ List.mem_cons_self x rest))

theorem foldl_sweep_preserve_none {keys : List SessId} {st : ServerState} {sid : SessId}
    (h : getSession st sid = none) :
    getSession (keys.foldl sweepOne st) sid = none := by
  induction keys generalizing st with
  | nil => exact h
  | cons x rest ih =>
      rw [List.foldl_cons]
      apply ih
      by_cases hx : x = sid
      · subst hx; rw [sweepOne_of_none h]; exact h
      · rw [sweepOne_getSession_ne hx]; exact h

theorem leaveRoom_rooms_none {st : ServerState} {rid : String} (x : SessId) (rid' : String)
    (h : alookup rid st.rooms = none) :
    alookup rid (leaveRoom st x rid').rooms = none := by
  unfold leaveRoom
  cases hl : alookup rid' st.rooms with
  | none => exact h
  | some room =>
      have hne : rid ≠ rid' := by rintro rfl; rw [h] at hl; exact Option.noConfusion hl
      dsimp only
      split
      · exact alookup_none_of_sublist (aerase_sublist _ _) h
      · show alookup rid (aset rid' _ st.rooms) = none
        rw [alookup_aset, if_neg hne]
        exact h

theorem terminateSession_rooms_none {st : ServerState} {rid : String} (x : SessId)
    (h : alookup rid st.rooms = none) :
    alookup rid (terminateSession st x).rooms = none := by
  unfold terminateSession
  cases hx : getSession st x with
  | none => exact h
  | some s =>
      rcases hr : s.roomId with _ | rid'
      · simp only [hr]; exact h
      · simp only [hr]; exact leaveRoom_rooms_none x rid' h

theorem sweepOne_rooms_none {st : ServerState} {rid : String} (x : SessId)
    (h : alookup rid st.rooms = none) :
    alookup rid (sweepOne st x).rooms = none := by
  unfold sweepOne
  cases hx : getSession st x with
  | none => exact h
  | some s =>
      dsimp only
      by_cases ha : s.isAlive = true
      · rw [if_pos ha]; exact h
      · rw [if_neg ha]; exact terminateSession_rooms_none x h

theorem foldl_sweep_rooms_none {keys : List SessId} {st : ServerState} {rid : String}
    (h : alookup rid st.rooms = none) :
    alookup rid (keys.foldl sweepOne st).rooms = none := by
  induction keys generalizing st with
  | nil => exact h
  | cons x rest ih => rw [List.foldl_cons]; exact ih (sweepOne_rooms_none x h)

theorem sweepOne_sessions_nodup {st : ServerState} (x : SessId)
    (h : (st.sessions.map Prod.fst).Nodup) :
    ((sweepOne st x).sessions.map Prod.fst).Nodup := by
  unfold sweepOne
  cases hx : getSession st x with
  | none => exact h
  | some s =>
      dsimp only
      by_cases ha : s.isAlive = true
      · rw [if_pos ha]; exact nodup_keys_aset x _ h
      · rw [if_neg ha, terminateSession_sessions]; exact nodup_keys_aerase x h

theorem foldl_sweep_sessions_nodup (keys : List SessId) {st : ServerState}
    (h : (st.sessions.map Prod.fst).Nodup) :
    ((keys.foldl sweepOne st).sessions.map Prod.fst).Nodup := by
  induction keys generalizing st with
  | nil => exact h
  | cons x rest ih => rw [List.foldl_cons]; exact ih (sweepOne_sessions_nodup x h)

theorem leaveRoom_rooms_nodup {st : ServerState} (x : SessId) (rid' : String)
    (h : (st.rooms.map Prod.fst).Nodup) :
    ((leaveRoom st x rid').rooms.map Prod.fst).Nodup := by
  unfold leaveRoom
  cases hl : alookup rid' st.rooms with
  | none => exact h
  | some room =>
      dsimp only
      split
      · exact nodup_keys_aerase rid' h
      · exact nodup_keys_aset rid' _ h

theorem terminateSession_rooms_nodup {st : ServerState} (x : SessId)
    (h : (st.rooms.map Prod.fst).Nodup) :
    ((terminateSession st x).rooms.map Prod.fst).Nodup := by
  unfold terminateSession
  cases hx : getSession st x with
  | none => exact h
  | some s =>
      rcases hr : s.roomId with _ | rid'
      · simp only [hr]; exact h
      · simp only [hr]; exact leaveRoom_rooms_nodup x rid' h

theorem sweepOne_rooms_nodup {st : ServerState} (x : SessId)
    (h : (st.rooms.map Prod.fst).Nodup) :
    ((sweepOne st x).rooms.map Prod.fst).Nodup := by
  unfold sweepOne
  cases hx : getSession st x with
  | none => exact h
  | some s =>
      dsimp only
      by_cases ha : s.isAlive = true
      · rw [if_pos ha]; exact h
      · rw [if_neg ha]; exact terminateSession_rooms_nodup x h

theorem foldl_sweep_rooms_nodup (keys : List SessId) {st : ServerState}
    (h : (st.rooms.map Prod.fst).Nodup) :
    ((keys.foldl sweepOne st).rooms.map Prod.fst).Nodup := by
  induction keys generalizing st with
  | nil => exact h
  | cons x rest ih => rw [List.foldl_cons]; exact ih (sweepOne_rooms_nodup x h)

/-- The socket `sid` is the sole member of the registered room `rid`. -/
def SoleRoom (st : ServerState) (rid : String) (sid : SessId) : Prop :=
  ∃ rd, alookup rid st.rooms = some rd ∧ rd.clients = [sid]

theorem leaveRoom_sole {st : ServerState} {rid : String} {sid : SessId} (x : SessId)
    (rid' : String) (hne : x ≠ sid) (h : SoleRoom st rid sid) :
    SoleRoom (leaveRoom st x rid') rid sid := by
  obtain ⟨rd, hrd, hc⟩ := h
  unfold leaveRoom
  cases hl : alookup rid' st.rooms with
  | none => exact ⟨rd, hrd, hc⟩
  | some room =>
      by_cases hr : rid' = rid
      · subst hr
        rw [hrd] at hl
        cases hl
        have he : rd.clients.erase x = [sid] := by
          rw [hc, List.erase_cons]
          simp [Ne.symm hne]
        dsimp only
        rw [he, if_neg (by simp)]
        exact ⟨{ rd with clients := [sid] }, by rw [alookup_aset]; simp, rfl⟩
      · have hne' : rid ≠ rid' := fun hh => hr hh.symm
        dsimp only
        split
        · exact ⟨rd, by rw [alookup_aerase_ne hne']; exact hrd, hc⟩
        · exact ⟨rd, by rw [alookup_aset, if_neg hne']; exact hrd, hc⟩

theorem terminateSession_sole {st : ServerState} {rid : String} {sid : SessId}
    (x : SessId) (hne : x ≠ sid) (h : SoleRoom st rid sid) :
    SoleRoom (terminateSession st x) rid sid := by
  unfold terminateSession
  cases hx : getSession st x with
  | none => exact h
  | some s =>
      rcases hr : s.roomId with _ | rid'
      · simp only [hr]; exact h
      · simp only [hr]; exact leaveRoom_sole x rid' hne h

theorem sweepOne_sole {st : ServerState} {rid : String} {sid : SessId} (x : SessId)
    (hne : x ≠ sid) (h : SoleRoom st rid sid) : SoleRoom (sweepOne st x) rid sid := by
  unfold sweepOne
  cases hx : getSession st x with
  | none => exact h
  | some s =>
      dsimp only
      by_cases ha : s.isAlive = true
      · rw [if_pos ha]; exact h
      · rw [if_neg ha]; exact terminateSession_sole x hne h

theorem foldl_sweep_sole {keys : List SessId} {st : ServerState} {rid : String}
    {sid : SessId} (h : sid ∉ keys) (hsole : SoleRoom st rid sid) :
    SoleRoom (keys.foldl sweepOne st) rid sid := by
  induction keys generalizing st with
  | nil => exact hsole
  | cons x rest ih =>
      rw [List.foldl_cons]
      exact ih (fun hm => h (List.mem_cons_of_mem x hm))
        (sweepOne_sole x (fun he => h (he ▸ List.mem_cons_self x rest)) hsole)

/-- Every registered room's client list is duplicate-free (a JavaScript
`Set`); an invariant of all reachable states, preserved by the sweep. -/
def ClientsWF (st : ServerState) : Prop :=
  ∀ p ∈ st.rooms, (p.2 : RoomData).clients.Nodup

theorem leaveRoom_clientsWF {st : ServerState} (x : SessId) (rid' : String)
    (h : ClientsWF st) : ClientsWF (leaveRoom st x rid') := by
  intro p hp
  cases hl : alookup rid' st.rooms with
  | none =>
      rw [leaveRoom_eq_of_none hl] at hp
      exact h p hp
  | some room =>
      cases he : (room.clients.erase x).isEmpty with
      | true =>
          rw [leaveRoom_eq_of_some_empty hl he] at hp
          exact h p ((aerase_sublist _ _).subset hp)
      | false =>
          rw [leaveRoom_eq_of_some_nonempty hl he] at hp
          rcases mem_aset_sub hp with rfl | hp'
          · exact (h (rid', room) (alookup_mem_pair hl)).erase x
          · exact h p hp'

theorem terminateSession_clientsWF {st : ServerState} (x : SessId)
    (h : ClientsWF st) : ClientsWF (terminateSession st x) := by
  unfold terminateSession
  cases hx : getSession st x with
  | none => exact h
  | some s =>
      rcases hr : s.roomId with _ | rid'
      · simp only [hr]; exact h
      · simp only [hr]; exact leaveRoom_clientsWF x rid' h

theorem sweepOne_clientsWF {st : ServerState} (x : SessId) (h : ClientsWF st) :
    ClientsWF (sweepOne st x) := by
  unfold sweepOne
  cases hx : getSession st x with
  | none => exact h
  | some s =>
      dsimp only
      by_cases ha : s.isAlive = true
      · rw [if_pos ha]; exact h
      · rw [if_neg ha]; exact terminateSession_clientsWF x h

theorem foldl_sweep_clientsWF (keys : List SessId) {st : ServerState}
    (h : ClientsWF st) : ClientsWF (keys.foldl sweepOne st) := by
  induction keys generalizing st with
  | nil => exact h
  | cons x rest ih => rw [List.foldl_cons]; exact ih (sweepOne_clientsWF x h)

/-- The socket `sid` is not a member of room `rid` (vacuously, when `rid` is
not registered). -/
def NotInRoom (st : ServerState) (rid : String) (sid : SessId) : Prop :=
  ∀ rd, alookup rid st.rooms = some rd → sid ∉ rd.clients

theorem leaveRoom_self_not_in_room {st : ServerState} {sid : SessId} {rid : String}
    (hrk : (st.rooms.map Prod.fst).Nodup) (hcw : ClientsWF st) :
    NotInRoom (leaveRoom st sid rid) rid sid := by
  intro rd hrd
  cases hl : alookup rid st.rooms with
  | none =>
      rw [leaveRoom_eq_of_none hl, hl] at hrd
      exact Option.noConfusion hrd
  | some room =>
      cases he : (room.clients.erase sid).isEmpty with
      | true =>
          rw [leaveRoom_eq_of_some_empty hl he] at hrd
          dsimp only at hrd
          rw [alookup_aerase_self rid hrk] at hrd
          exact Option.noConfusion hrd
      | false =>
          rw [leaveRoom_eq_of_some_nonempty hl he] at hrd
          dsimp only at hrd
          rw [alookup_aset, if_pos rfl] at hrd
          cases hrd
          intro hmem
          have hnodup : room.clients.Nodup := hcw (rid, room) (alookup_mem_pair hl)
          exact absurd (hnodup.mem_erase_iff.mp hmem).1 (by simp)

theorem leaveRoom_not_in_room {st : ServerState} {rid : String} {sid : SessId}
    (x : SessId) (rid' : String) (hrk : (st.rooms.map Prod.fst).Nodup)
    (h : NotInRoom st rid sid) : NotInRoom (leaveRoom st x rid') rid sid := by
  intro rd hrd
  cases hl : alookup rid' st.rooms with
  | none =>
      rw [leaveRoom_eq_of_none hl] at hrd
      exact h rd hrd
  | some room =>
      cases he : (room.clients.erase x).isEmpty with
      | true =>
          rw [leaveRoom_eq_of_some_empty hl he] at hrd
          dsimp only at hrd
          by_cases hrr : rid = rid'
          · subst hrr
            rw [alookup_aerase_self rid hrk] at hrd
            exact Option.noConfusion hrd
          · rw [alookup_aerase_ne hrr] at hrd
            exact h rd hrd
      | false =>
          rw [leaveRoom_eq_of_some_nonempty hl he] at hrd
          dsimp only at hrd
          rw [alookup_aset] at hrd
          by_cases hrr : rid = rid'
          · rw [if_pos hrr] at hrd
            cases hrd
            intro hmem
            exact h room (by rw [hrr]; exact hl) (List.mem_of_mem_erase hmem)
          · rw [if_neg hrr] at hrd
            exact h rd hrd

theorem terminateSession_est_not_in_room {st : ServerState} {sid : SessId} {s : Session}
    {rid : String} (hrk : (st.rooms.map Prod.fst).Nodup) (hcw : ClientsWF st)
    (hs : getSession st sid = some s) (hr : s.roomId = some rid) :
    NotInRoom (terminateSession st sid) rid sid := by
  unfold terminateSession
  rw [hs]
  simp only [hr]
  intro rd hrd
  exact leaveRoom_self_not_in_room hrk hcw rd hrd

theorem terminateSession_not_in_room {st : ServerState} {rid : String} {sid : SessId}
    (x : SessId) (hrk : (st.rooms.map Prod.fst).Nodup) (h : NotInRoom st rid sid) :
    NotInRoom (terminateSession st x) rid sid := by
  unfold terminateSession
  cases hx : getSession st x with
  | none => exact h
  | some s =>
      rcases hro : s.roomId with _ | rid'
      · simp only [hro]; exact h
      · simp only [hro]
        intro rd hrd
        exact leaveRoom_not_in_room x rid' hrk h rd hrd

theorem sweepOne_not_in_room {st : ServerState} {rid : String} {sid : SessId}
    (x : SessId) (hrk : (st.rooms.map Prod.fst).Nodup) (h : NotInRoom st rid sid) :
    NotInRoom (sweepOne st x) rid sid := by
  unfold sweepOne
  cases hx : getSession st x with
  | none => exact h
  | some s =>
      dsimp only
      by_cases ha : s.isAlive = true
      · rw [if_pos ha]; exact h
      · rw [if_neg ha]; exact terminateSession_not_in_room x hrk h

theorem foldl_sweep_not_in_room (keys : List SessId) {st : ServerState} {rid : String}
    {sid : SessId} (hrk : (st.rooms.map Prod.fst).Nodup) (h : NotInRoom st rid sid) :
    NotInRoom (keys.foldl sweepOne st) rid sid := by
  induction keys generalizing st with
  | nil => exact h
  | cons x rest ih =>
      rw [List.foldl_cons]
      exact ih (sweepOne_rooms_nodup x hrk) (sweepOne_not_in_room x hrk h)

theorem foldl_sweep_session_evict (sid : SessId) (s : Session) :
    ∀ (keys : List SessId) (st : ServerState),
      keys.Nodup → sid ∈ keys → (st.sessions.map Prod.fst).Nodup →
      getSession st sid = some s →
      (s.isAlive = true →
          getSession (keys.foldl sweepOne st) sid = some { s with isAlive := false }) ∧
      (s.isAlive = false → getSession (keys.foldl sweepOne st) sid = none) := by
  intro keys
  induction keys with
  | nil => intro st _ hmem; exact absurd hmem (List.not_mem_nil sid)
  | cons x rest ih =>
      intro st hnd hmem hsk hs
      rcases List.mem_cons.mp hmem with rfl | hmem'
      · have hnotrest : sid ∉ rest := (List.nodup_cons.mp hnd).1
        constructor
        · intro ha
          rw [List.foldl_cons, sweepOne_alive hs ha, foldl_sweep_getSession_not_mem hnotrest]
          show alookup sid (aset sid _ st.sessions) = _
          rw [alookup_aset, if_pos rfl]
        · intro ha
          rw [List.foldl_cons, sweepOne_dead hs ha]
          apply foldl_sweep_preserve_none
          show alookup sid (terminateSession st sid).sessions = none
          rw [terminateSession_sessions]
          exact alookup_aerase_self sid hsk
      · have hxne : x ≠ sid := by
          rintro rfl
          exact (List.nodup_cons.mp hnd).1 hmem'
        rw [List.foldl_cons]
        exact ih (sweepOne st x) (List.nodup_cons.mp hnd).2 hmem'
          (sweepOne_sessions_nodup x hsk) (by rw [sweepOne_getSession_ne hxne]; exact hs)

theorem foldl_sweep_room_evict (sid : SessId) (rid : String) (s : Session) :
    ∀ (keys : List SessId) (st : ServerState),
      keys.Nodup → sid ∈ keys →
      (st.rooms.map Prod.fst).Nodup → ClientsWF st →
      getSession st sid = some s → s.roomId = some rid → s.isAlive = false →
      NotInRoom (keys.foldl sweepOne st) rid sid := by
  intro keys
  induction keys with
  | nil => intro st _ hmem; exact absurd hmem (List.not_mem_nil sid)
  | cons x rest ih =>
      intro st hnd hmem hrk hcw hs hr ha
      rcases List.mem_cons.mp hmem with rfl | hmem'
      · rw [List.foldl_cons, sweepOne_dead hs ha]
        exact foldl_sweep_not_in_room rest (terminateSession_rooms_nodup sid hrk)
          (terminateSession_est_not_in_room hrk hcw hs hr)
      · have hxne : x ≠ sid := by
          rintro rfl
          exact (List.nodup_cons.mp hnd).1 hmem'
        rw [List.foldl_cons]
        exact ih (sweepOne st x) (List.nodup_cons.mp hnd).2 hmem'
          (sweepOne_rooms_nodup x hrk) (sweepOne_clientsWF x hcw)
          (by rw [sweepOne_getSession_ne hxne]; exact hs) hr ha

theorem terminateSession_evict {st : ServerState} {sid : SessId} {s : Session}
    {rid : String} (hsk : (st.sessions.map Prod.fst).Nodup)
    (hrk : (st.rooms.map Prod.fst).Nodup) (hs : getSession st sid = some s)
    (hr : s.roomId = some rid) (hsole : SoleRoom st rid sid) :
    getSession (terminateSession st sid) sid = none ∧
    alookup rid (terminateSession st sid).rooms = none := by
  obtain ⟨rd, hrd, hc⟩ := hsole
  constructor
  · show alookup sid (terminateSession st sid).sessions = none
    rw [terminateSession_sessions]
    exact alookup_aerase_self sid hsk
  · unfold terminateSession
    rw [hs]
    simp only [hr]
    show alookup rid (leaveRoom st sid rid).rooms = none
    unfold leaveRoom
    rw [hrd]
    dsimp only
    rw [hc]
    simp only [List.erase_cons_head, List.isEmpty_nil, if_true]
    exact alookup_aerase_self rid hrk

theorem foldl_sweep_evict (sid : SessId) (rid : String) (s : Session) :
    ∀ (keys : List SessId) (st : ServerState),
      keys.Nodup → sid ∈ keys →
      (st.sessions.map Prod.fst).Nodup → (st.rooms.map Prod.fst).Nodup →
      getSession st sid = some s → s.roomId = some rid → SoleRoom st rid sid →
      (s.isAlive = true →
          getSession (keys.foldl sweepOne st) sid = some { s with isAlive := false } ∧
          SoleRoom (keys.foldl sweepOne st) rid sid) ∧
      (s.isAlive = false →
          getSession (keys.foldl sweepOne st) sid = none ∧
          alookup rid (keys.foldl sweepOne st).rooms = none) := by
  intro keys
  induction keys with
  | nil => intro st _ hmem; exact absurd hmem (List.not_mem_nil sid)
  | cons x rest ih =>
      intro st hnd hmem hsk hrk hs hr hsole
      rcases List.mem_cons.mp hmem with rfl | hmem'
      · have hnotrest : sid ∉ rest := (List.nodup_cons.mp hnd).1
        constructor
        · intro ha
          rw [List.foldl_cons, sweepOne_alive hs ha]
          constructor
          · rw [foldl_sweep_getSession_not_mem hnotrest]
            show alookup sid (aset sid _ st.sessions) = _
            rw [alookup_aset, if_pos rfl]
          · exact foldl_sweep_sole hnotrest hsole
        · intro ha
          rw [List.foldl_cons, sweepOne_dead hs ha]
          have hev := terminateSession_evict hsk hrk hs hr hsole
          exact ⟨foldl_sweep_preserve_none hev.1, foldl_sweep_rooms_none hev.2⟩
      · have hxne : x ≠ sid := by
          rintro rfl
          exact (List.nodup_cons.mp hnd).1 hmem'
        have hs' : getSession (sweepOne st x) sid = some s := by
          rw [sweepOne_getSession_ne hxne]; exact hs
        rw [List.foldl_cons]
        exact ih (sweepOne st x) (List.nodup_cons.mp hnd).2 hmem'
          (sweepOne_sessions_nodup x hsk) (sweepOne_rooms_nodup x hrk) hs' hr
          (sweepOne_sole x hxne hsole)

/-- Claim C8: a probe response (`pong`) sets the alive flag back to true; a
sweep terminates a socket found with the flag already false and otherwise
clears the flag and probes; every socket that never responds between two
consecutive sweeps is out of the session set and out of its room's member
set after the second sweep (within `2 × sweep_interval`); and its room is
deleted from the registry when the socket was the sole member. -/
theorem claim_liveness_eviction (st : ServerState) (sid : SessId) (s : Session)
    (rid : String) (hsk : (st.sessions.map Prod.fst).Nodup)
    (hrk : (st.rooms.map Prod.fst).Nodup) (hcw : ClientsWF st)
    (hs : getSession st sid = some s) (hr : s.roomId = some rid) :
    (pong st sid = { st with sessions := aset sid { s with isAlive := true } st.sessions }) ∧
    (s.isAlive = false → sweepOne st sid = terminateSession st sid) ∧
    (s.isAlive = true →
        sweepOne st sid =
          { st with sessions := aset sid { s with isAlive := false } st.sessions }) ∧
    getSession (sweep (sweep st)) sid = none ∧
    NotInRoom (sweep (sweep st)) rid sid ∧
    (SoleRoom st rid sid → alookup rid (sweep (sweep st)).rooms = none) := by
  have hmem : sid ∈ st.sessions.map Prod.fst := mem_keys_of_alookup hs
  have hA := foldl_sweep_session_evict sid s (st.sessions.map Prod.fst) st hsk hmem hsk hs
  have hsk1 := foldl_sweep_sessions_nodup (st.sessions.map Prod.fst) hsk
  have hrk1 := foldl_sweep_rooms_nodup (st.sessions.map Prod.fst) hrk
  have hcw1 := foldl_sweep_clientsWF (st.sessions.map Prod.fst) hcw
  have hgone : getSession (sweep (sweep st)) sid = none := by
    simp only [sweep]
    cases ha : s.isAlive with
    | false => exact foldl_sweep_preserve_none (hA.2 ha)
    | true =>
        have hg := hA.1 ha
        exact (foldl_sweep_session_evict sid { s with isAlive := false }
          (((st.sessions.map Prod.fst).foldl sweepOne st).sessions.map Prod.fst)
          ((st.sessions.map Prod.fst).foldl sweepOne st) hsk1
          (mem_keys_of_alookup hg) hsk1 hg).2 rfl
  have hnotin : NotInRoom (sweep (sweep st)) rid sid := by
    simp only [sweep]
    cases ha : s.isAlive with
    | false =>
        have hB := foldl_sweep_room_evict sid rid s (st.sessions.map Prod.fst) st
          hsk hmem hrk hcw hs hr ha
        exact foldl_sweep_not_in_room _ hrk1 hB
    | true =>
        have hg := hA.1 ha
        exact foldl_sweep_room_evict sid rid { s with isAlive := false }
          (((st.sessions.map Prod.fst).foldl sweepOne st).sessions.map Prod.fst)
          ((st.sessions.map Prod.fst).foldl sweepOne st)
          hsk1 (mem_keys_of_alookup hg) hrk1 hcw1 hg hr rfl
  have hsoledel : SoleRoom st rid sid → alookup rid (sweep (sweep st)).rooms = none := by
    intro hsole
    simp only [sweep]
    have h1 := foldl_sweep_evict sid rid s (st.sessions.map Prod.fst) st hsk hmem hsk hrk
      hs hr hsole
    cases ha : s.isAlive with
    | false => exact foldl_sweep_rooms_none (h1.2 ha).2
    | true =>
        obtain ⟨hg, hsole1⟩ := h1.1 ha
        exact ((foldl_sweep_evict sid rid { s with isAlive := false }
          (((st.sessions.map Prod.fst).foldl sweepOne st).sessions.map Prod.fst)
          ((st.sessions.map Prod.fst).foldl sweepOne st) hsk1
          (mem_keys_of_alookup hg) hsk1 hrk1 hg hr hsole1).2 rfl).2
  exact ⟨by simp [pong, hs], fun ha => sweepOne_dead hs ha,
    fun ha => sweepOne_alive hs ha, hgone, hnotin, hsoledel⟩

/-- Closed instance of claim C8's theorem: socket 2 of `stQ` with its alive
flag already false is gone — and its sole-member room `"q"` deleted — after
two sweeps; each hypothesis is checked concretely. -/
theorem claim_liveness_eviction_witness :
    getSession (sweep (sweep stQ)) 2 = none ∧
    alookup "q" (sweep (sweep stQ)).rooms = none := by
  have h := claim_liveness_eviction stQ 2 ⟨false, some "q", some 0, true⟩ "q" (by decide)
    (by decide) (by unfold ClientsWF; decide) (by decide) rfl
  exact ⟨h.2.2.2.1, h.2.2.2.2.2 ⟨⟨0, [2]⟩, by decide, rfl⟩⟩

end WsRelay
